import Mathlib

/-!
Verification development for the handwriting-with-AI repository.

The Python sources are shallowly embedded:
* strings become `List Char` (Python indexing/slicing becomes `take`/`drop`);
* Python `int(x / y)` on integer operands becomes `Int.tdiv` (truncation
  toward zero, matching `int()` on the float quotient for the magnitudes
  the program works with), and Python `//` becomes `Int.fdiv` (floor);
* the external `jieba.cut` tokenizer is an explicit function parameter
  `cut : Str -> List Str`; concrete instantiations used below record the
  tokenizations jieba actually produces on those inputs;
* PIL images and fonts are explicit data / function parameters; the global
  `random` module is a stream of draws threaded through the code that
  consumes it;
* code that can raise returns `Option` / `Except`.
-/

set_option autoImplicit false

abbrev Str := List Char

/-- Python str.strip: drop leading and trailing whitespace. -/
def pyStrip (s : Str) : Str :=
  ((s.dropWhile Char.isWhitespace).reverse.dropWhile Char.isWhitespace).reverse

/-- Python text.split with separator newline: keeps empty pieces. -/
def split_nl : Str → List Str
  | [] => [[]]
  | c :: rest =>
    if c = '\n' then [] :: split_nl rest
    else
      match split_nl rest with
      | [] => [[c]]
      | s :: ss => (c :: s) :: ss

/-- Python str.split with no argument: split on whitespace runs, no empty tokens. -/
def split_ws_go (cur : Str) : Str → List Str
  | [] => if cur = [] then [] else [cur.reverse]
  | c :: rest =>
    if c.isWhitespace then
      if cur = [] then split_ws_go [] rest else cur.reverse :: split_ws_go [] rest
    else split_ws_go (c :: cur) rest

def split_ws (s : Str) : List Str := split_ws_go [] s

/-- Chinese character test, from TextProcessor.chinese_pattern
    (regex range 4e00-9fa5 in src/utils/text_processor.py). -/
def isChineseChar (c : Char) : Bool :=
  0x4e00 ≤ c.toNat && c.toNat ≤ 0x9fa5

/-- TextProcessor._contains_chinese. -/
def contains_chinese (s : Str) : Bool := s.any isChineseChar

/-- The CJK punctuation characters of TextProcessor.punctuation_pattern. -/
def cjk_punct_chars : Str := "。？！，、；：“”‘’（）〔〕《》〈〉～﹏".toList

def is_cjk_punct (c : Char) : Bool := c ∈ cjk_punct_chars

/-- The punctuation marks used by TextProcessor._find_split_point. -/
def split_marks : Str := ".!?。！？;；,，".toList

/-- The scanning loop of _find_split_point: for i in range(max_length,
    max_length-50, -1): if i <= 0: break; if text[i-1] in marks: return i.
    The candidate list is [maxLength, maxLength-1, ...]; natural subtraction
    bottoms out at 0, which is exactly where the Python loop breaks. -/
def find_split_point_loop (text : Str) : List Nat → Option Nat
  | [] => none
  | i :: rest =>
    if i = 0 then none
    else if (text.get? (i - 1)).any (· ∈ split_marks) then some i
    else find_split_point_loop text rest

/-- TextProcessor._find_split_point. -/
def find_split_point (text : Str) (maxLength : Nat) : Nat :=
  if text.length ≤ maxLength then text.length
  else
    match find_split_point_loop text ((List.range 50).map (fun k => maxLength - k)) with
    | some i => i
    | none => maxLength

/-- One iteration of the line loop of TextProcessor.split_text_to_paragraphs,
    acting on the state (paragraphs, current_paragraph).
    Note the faithful re-use of the reassigned current_paragraph in the
    slice indices of lines 67-68 of the source. -/
def para_step (maxLen : Nat) (st : List Str × Str) (rawLine : Str) : List Str × Str :=
  let paras := st.1
  let cur := st.2
  let line := pyStrip rawLine
  if line = [] then
    if cur ≠ [] then (paras ++ [cur], []) else (paras, cur)
  else if cur ≠ [] ∧ cur.length + line.length + 1 > maxLen then
    let sp := find_split_point (cur ++ [' '] ++ line) maxLen
    if sp > cur.length then
      let cur1 := line.take (sp - cur.length - 1)
      let idx := sp - cur1.length - 1
      if idx < line.length then (paras ++ [cur, line.drop idx], cur1)
      else (paras ++ [cur], cur1)
    else
      (paras ++ [cur.take sp], pyStrip (cur.drop sp) ++ [' '] ++ line)
  else
    (paras, (if cur ≠ [] then cur ++ [' '] else cur) ++ line)

/-- TextProcessor.split_text_to_paragraphs. -/
def split_text_to_paragraphs (text : Str) (maxLen : Nat) : List Str :=
  if text = [] then []
  else
    let st := (split_nl text).foldl (para_step maxLen) ([], [])
    if st.2 ≠ [] then st.1 ++ [st.2] else st.1

/-- One iteration of the CJK word loop of TextProcessor.split_paragraph_to_lines
    (lines 141-154 of src/utils/text_processor.py), on the state
    (lines, current_line).  The membership test embeds
    word[0] in punctuation_pattern.findall(word) verbatim. -/
def cjk_step (maxChars : Int) (st : List Str × Str) (word : Str) : List Str × Str :=
  let lines := st.1
  let cur := st.2
  if (cur.length + word.length : Int) > maxChars then
    match word with
    | [] => (lines ++ [cur], [])
    | c :: rest =>
      if c ∈ (c :: rest).filter is_cjk_punct then
        if cur ≠ [] then (lines ++ [cur ++ [c]], rest)
        else (lines ++ [cur], c :: rest)
      else (lines ++ [cur], c :: rest)
  else (lines, cur ++ word)

/-- One iteration of the non-CJK word loop of
    TextProcessor.split_paragraph_to_lines (lines 163-171). -/
def en_step (maxChars : Int) (st : List Str × Str) (word : Str) : List Str × Str :=
  let lines := st.1
  let cur := st.2
  if (cur.length + 1 + word.length : Int) > maxChars ∧ cur ≠ [] then
    (lines ++ [cur], word)
  else
    (lines, (if cur ≠ [] then cur ++ [' '] else cur) ++ word)

/-- TextProcessor.split_paragraph_to_lines.  The empty-paragraph early
    return comes first; then max_chars_per_line is
    int(available_width / (font_size * 0.5)), which raises ZeroDivisionError
    when font_size is 0 (modelled none) and on positive integers is
    truncated division of 2 * available_width by font_size. -/
def split_paragraph_to_lines (cut : Str → List Str) (paragraph : Str)
    (font_size page_width margin : Nat) : Option (List Str) :=
  if paragraph = [] then some []
  else if font_size = 0 then none
  else
    let available_width : Int := (page_width : Int) - 2 * (margin : Int)
    let max_chars : Int := Int.tdiv (2 * available_width) (font_size : Int)
    if contains_chinese paragraph then
      let st := (cut paragraph).foldl (cjk_step max_chars) ([], [])
      some (if st.2 ≠ [] then st.1 ++ [st.2] else st.1)
    else
      let st := (split_ws paragraph).foldl (en_step max_chars) ([], [])
      some (if st.2 ≠ [] then st.1 ++ [st.2] else st.1)

/-- TextProcessor.add_line_breaks_for_handwriting: per paragraph in order,
    compute its lines (an exception aborting the whole call, hence mapM)
    and append one empty line after each paragraph; finally pop a trailing
    empty line.  line_spacing is accepted and unused, as in the source. -/
def add_line_breaks_for_handwriting (cut : Str → List Str) (text : Str)
    (font_size page_width margin line_spacing : Nat) : Option (List Str × Nat) :=
  let _ := line_spacing
  let paragraphs := split_text_to_paragraphs text 200
  match paragraphs.mapM (fun p => split_paragraph_to_lines cut p font_size page_width margin) with
  | none => none
  | some liness =>
    let all_lines := liness.foldl (fun acc lines => acc ++ lines ++ [[]]) []
    let all_lines :=
      if all_lines ≠ [] ∧ all_lines.getLast? = some [] then all_lines.dropLast else all_lines
    some (all_lines, all_lines.length)

/-- TextProcessor.estimate_page_count.  int(available_height / line_height)
    on integer operands is truncated division; a zero divisor raises
    ZeroDivisionError (modelled none), checked before the line counting as
    in the source; the line counting itself may raise (font_size 0); the
    final page division uses Python floor division and raises when
    max_lines_per_page is 0. -/
def estimate_page_count (cut : Str → List Str) (text : Str)
    (font_size page_width page_height margin line_spacing : Nat) : Option Int :=
  let line_height : Int := (font_size : Int) + (line_spacing : Int)
  let available_height : Int := (page_height : Int) - 2 * (margin : Int)
  if line_height = 0 then none
  else
    let max_lines_per_page : Int := Int.tdiv available_height line_height
    match add_line_breaks_for_handwriting cut text font_size page_width margin line_spacing with
    | none => none
    | some lines_total =>
      let total_lines : Int := (lines_total.2 : Int)
      if max_lines_per_page = 0 then none
      else some (max 1 (Int.fdiv (total_lines + max_lines_per_page - 1) max_lines_per_page))

/-!
Embedding of src/handwriting_module/handwriting_generator.py
(PillowHandwritingGenerator.generate_handwriting).

The module-level `random` generator of Python is a stream of integer draws
with a position; every call to randint / random / uniform consumes one draw
and advances the shared position.  No seed is ever set anywhere in the
repository and the generator functions accept no seed argument.
-/

structure RngState where
  stream : Nat → Int
  pos : Nat

def rng_next (g : RngState) : Int × RngState :=
  (g.stream g.pos, ⟨g.stream, g.pos + 1⟩)

/-- random.randint(a, b): one draw, folded into the inclusive range. -/
def randint (a b : Int) (g : RngState) : Int × RngState :=
  let v := rng_next g
  (a + v.1.emod (b - a + 1), v.2)

/-- random.random(): one draw, folded into [0, 1). -/
def rand_random (g : RngState) : ℚ × RngState :=
  let v := rng_next g
  (mkRat (v.1.emod 1000000) 1000000, v.2)

/-- random.uniform(a, b): one draw, folded into [a, b]. -/
def rand_uniform (a b : ℚ) (g : RngState) : ℚ × RngState :=
  let v := rng_next g
  (a + mkRat (v.1.emod 1000000) 1000000 * (b - a), v.2)

/-- Python int() truncation of a rational toward zero. -/
def pyInt (q : ℚ) : Int := if 0 ≤ q then q.floor else -((-q).floor)

/-- The PIL font object obtained by _get_font(font_size): only its getsize
    metric (width, height in pixels) is consumed by the generator. -/
structure FontM where
  getsize : Str → Nat × Nat

/-- A drawing command on the page canvas: draw.text at an (offset_x, offset_y)
    position, or the rotated-text composite of _draw_rotated_text. -/
inductive DrawOp
  | text (x : Int) (y : ℚ) (s : Str)
  | rotatedText (x : Int) (y : ℚ) (s : Str) (angle : ℚ)
deriving DecidableEq

/-- The single page canvas produced by generate_handwriting: an A5 white
    RGB image plus the ordered drawing commands applied to it.  Two canvases
    are pixel-identical exactly when these data agree. -/
structure PageImage where
  width : Nat
  height : Nat
  ops : List DrawOp
deriving DecidableEq

def a5_width : Nat := 1748
def a5_height : Nat := 2480

/-- The line-splitting loop of generate_handwriting (lines 135-159):
    per input newline-paragraph, greedy character packing measured with
    font.getsize; an empty paragraph contributes one empty line. -/
def gen_lines (font : FontM) (text_area_width : Int) (text : Str) : List Str :=
  (split_nl text).foldl
    (fun lines paragraph =>
      if paragraph = [] then lines ++ [[]]
      else
        let st := paragraph.foldl
          (fun (st : List Str × Str) ch =>
            let test_line := st.2 ++ [ch]
            if ((font.getsize test_line).1 : Int) > text_area_width then
              (st.1 ++ [st.2], [ch])
            else (st.1, test_line))
          ([], [])
        let ls := lines ++ st.1
        if st.2 ≠ [] then ls ++ [st.2] else ls)
    []

/-- The drawing of one line (lines 173-187): offset_x and offset_y each
    consume one randint draw; the "natural" effect style additionally draws
    a uniform rotation angle and pastes a rotated buffer. -/
def draw_line (effect_style : Str) (start_y line_height : Int) (line_spacing : ℚ)
    (margin : Nat) (i : Nat) (line : Str) (g : RngState) : DrawOp × RngState :=
  let dx := randint (-2) 2 g
  let offset_x : Int := (margin : Int) + dx.1
  let dy := randint (-1) 1 dx.2
  let offset_y : ℚ := (start_y : ℚ) + (i : ℚ) * (line_height : ℚ) * line_spacing + (dy.1 : ℚ)
  if effect_style = "natural".toList then
    let ang := rand_uniform (-(1/2)) (1/2) dy.2
    (DrawOp.rotatedText offset_x offset_y line ang.1, ang.2)
  else (DrawOp.text offset_x offset_y line, dy.2)

def draw_lines (effect_style : Str) (start_y line_height : Int) (line_spacing : ℚ)
    (margin : Nat) : List (Nat × Str) → RngState → List DrawOp × RngState
  | [], g => ([], g)
  | (i, line) :: rest, g =>
    let op := draw_line effect_style start_y line_height line_spacing margin i line g
    let rs := draw_lines effect_style start_y line_height line_spacing margin rest op.2
    (op.1 :: rs.1, rs.2)

/-- PillowHandwritingGenerator.generate_handwriting (lines 110-192).
    font models the result of _get_font(font_size); font_size itself is
    otherwise unused by the body, as in the source.  The try/except of the
    source catches raster-library failures, which the pure model does not
    produce; the Option result keeps the source's signature. -/
def generate_handwriting (font : FontM) (effect_style : Str) (font_size : Nat)
    (line_spacing : ℚ) (margin : Nat) (text : Str) (g : RngState) :
    Option PageImage × RngState :=
  let _ := font_size
  let text_area_width : Int := (a5_width : Int) - 2 * (margin : Int)
  let text_area_height : Int := (a5_height : Int) - 2 * (margin : Int)
  let lines := gen_lines font text_area_width text
  let line_height : Int := ((font.getsize ("测试".toList)).2 : Int)
  let actual_text_height : Int := pyInt ((lines.length : ℚ) * (line_height : ℚ) * line_spacing)
  let start_y : Int := (margin : Int) + Int.fdiv (text_area_height - actual_text_height) 2
  let drawn := draw_lines effect_style start_y line_height line_spacing margin lines.enum g
  (some ⟨a5_width, a5_height, drawn.1⟩, drawn.2)

/-!
Embedding of src/handwriting_module/effect_processor.py (EffectProcessor).

PIL Image objects are mutable heap cells: the heap is a list of image
values, a reference is an index, Image.copy / Image.new / convert / filter /
blend / enhance allocate fresh cells, and the pixel-access writes of
_apply_noise and _apply_paper_texture mutate the cell they load.  The PIL
raster primitives themselves (convert, GaussianBlur, blend, enhance, point,
paste, putalpha) are external-library content functions supplied as a
parameter; the ones the library can fail in return Except. -/

abbrev Pixel := Nat × Nat × Nat × Nat

structure Img where
  mode : Str
  px : List (List Pixel)
deriving DecidableEq

/-- image.size: (width, height); px is indexed column-first to match the
    pixels[i, j] accesses of the source. -/
def img_size (img : Img) : Nat × Nat := (img.px.length, (img.px.headD []).length)

structure PilErr where
  msg : Str
deriving DecidableEq

/-- The external PIL raster primitives consumed by EffectProcessor. -/
structure Pil where
  convert : Img → Str → Except PilErr Img
  pointFn : Img → (Nat → Nat) → Str → Img
  gaussianBlur : Img → ℚ → Except PilErr Img
  newImg : Nat → Nat → Str → Str → Img
  pasteAt : Img → Img → Int × Int → Img
  pasteMasked : Img → Img → Int × Int → Img → Img
  putalpha : Img → Img → Img
  blend : Img → Img → ℚ → Except PilErr Img
  enhanceBrightness : Img → ℚ → Except PilErr Img
  enhanceContrast : Img → ℚ → Except PilErr Img

abbrev Heap := List Img
abbrev Ref := Nat

def alloc (h : Heap) (img : Img) : Heap × Ref := (h ++ [img], h.length)
def hget (h : Heap) (r : Ref) : Option Img := h.get? r
def hset (h : Heap) (r : Ref) (img : Img) : Heap := h.set r img

/-- The effect configuration dictionaries of EffectProcessor.__init__;
    keys absent from a dictionary are none.  mkRat p q writes the source's
    decimal literals (0.1 = mkRat 1 10 and so on) in a kernel-reducible form. -/
structure EffectConfig where
  enabled : Bool
  ink_spread : Option ℚ
  noise : Option ℚ
  blur : Option ℚ
  rotation : Option ℚ
deriving DecidableEq

def effect_levels : List (Str × EffectConfig) :=
  [("none".toList, ⟨false, none, none, none, none⟩),
   ("limited".toList, ⟨true, some (mkRat 1 10), some (mkRat 1 20), some (mkRat 1 2), some (mkRat 1 2)⟩),
   ("natural".toList, ⟨true, some (mkRat 3 10), some (mkRat 1 10), some 1, some 1⟩),
   ("strong".toList, ⟨true, some (mkRat 1 2), some (mkRat 1 5), some (mkRat 3 2), some (mkRat 3 2)⟩)]

/-- The configuration apply_effects works with for a given style:
    effect_levels.get(effect_style, effect_levels["limited"]). -/
def effect_config (effect_style : Str) : EffectConfig :=
  (effect_levels.lookup effect_style).getD
    ((effect_levels.lookup ("limited".toList)).getD ⟨false, none, none, none, none⟩)

/-- EffectProcessor._apply_ink_spread (lines 77-124): all intermediate
    images are freshly allocated; result.paste and ink_layer.putalpha
    mutate the cells allocated inside this stage. -/
def apply_ink_spread (pil : Pil) (intensity : ℚ) (h : Heap) (r : Ref) :
    Heap × Except PilErr Ref :=
  if intensity ≤ 0 then (h, .ok r)
  else
    match hget h r with
    | none => (h, .error ⟨"missing image".toList⟩)
    | some img =>
      match pil.convert img ("L".toList) with
      | .error e => (h, .error e)
      | .ok grayImg =>
        let a1 := alloc h grayImg
        let kernel_size : Int := max 1 (pyInt (intensity * 3))
        let maskImg := pil.pointFn grayImg (fun x => if x < 128 then 255 else 0) ("1".toList)
        let a2 := alloc a1.1 maskImg
        match pil.gaussianBlur maskImg (kernel_size : ℚ) with
        | .error e => (a2.1, .error e)
        | .ok blurredImg =>
          let a3 := alloc a2.1 blurredImg
          let sz := img_size img
          let resultImg0 := pil.newImg sz.1 sz.2 ("RGB".toList) ("white".toList)
          let a4 := alloc a3.1 resultImg0
          let resultImg1 := pil.pasteAt resultImg0 img (0, 0)
          let h5 := hset a4.1 a4.2 resultImg1
          let invertedImg := pil.pointFn blurredImg (fun x => 255 - x) ("L".toList)
          let a6 := alloc h5 invertedImg
          let inkImg0 := pil.newImg sz.1 sz.2 ("RGB".toList) ("black".toList)
          let a7 := alloc a6.1 inkImg0
          let inkImg1 := pil.putalpha inkImg0 invertedImg
          let h8 := hset a7.1 a7.2 inkImg1
          let resultImg2 := pil.pasteMasked resultImg1 inkImg1 (0, 0) inkImg1
          let h9 := hset h8 a4.2 resultImg2
          (h9, .ok a4.2)

/-- The pixel loop of _apply_noise (lines 145-158) over one column:
    a Bernoulli trial per pixel, then a signed delta clamped per channel
    (alpha untouched), consuming draws in source order. -/
def clamp255 (x : Int) : Nat := (max 0 (min 255 x)).toNat

def noise_pixel (n : Int) (p : Pixel) : Pixel :=
  (clamp255 ((p.1 : Int) + n), clamp255 ((p.2.1 : Int) + n),
   clamp255 ((p.2.2.1 : Int) + n), p.2.2.2)

def noise_col (intensity : ℚ) : List Pixel → RngState → List Pixel × RngState
  | [], g => ([], g)
  | p :: ps, g =>
    let u := rand_random g
    if u.1 < intensity then
      let n := randint (-30) 30 u.2
      let rest := noise_col intensity ps n.2
      (noise_pixel n.1 p :: rest.1, rest.2)
    else
      let rest := noise_col intensity ps u.2
      (p :: rest.1, rest.2)

def noise_grid (intensity : ℚ) : List (List Pixel) → RngState →
    List (List Pixel) × RngState
  | [], g => ([], g)
  | col :: cols, g =>
    let c := noise_col intensity col g
    let rest := noise_grid intensity cols c.2
    (c.1 :: rest.1, rest.2)

/-- EffectProcessor._apply_noise (lines 126-161): convert to RGBA
    (fresh cell), mutate that cell pixel by pixel, convert back to RGB
    (fresh cell). -/
def apply_noise (pil : Pil) (intensity : ℚ) (g : RngState) (h : Heap) (r : Ref) :
    Heap × RngState × Except PilErr Ref :=
  if intensity ≤ 0 then (h, g, .ok r)
  else
    match hget h r with
    | none => (h, g, .error ⟨"missing image".toList⟩)
    | some img =>
      match pil.convert img ("RGBA".toList) with
      | .error e => (h, g, .error e)
      | .ok rgbaImg =>
        let a1 := alloc h rgbaImg
        let ng := noise_grid intensity rgbaImg.px g
        let rgbaImg1 : Img := ⟨rgbaImg.mode, ng.1⟩
        let h2 := hset a1.1 a1.2 rgbaImg1
        match pil.convert rgbaImg1 ("RGB".toList) with
        | .error e => (h2, ng.2, .error e)
        | .ok rgbImg =>
          let a3 := alloc h2 rgbImg
          (a3.1, ng.2, .ok a3.2)

/-- EffectProcessor._apply_blur (lines 163-178). -/
def apply_blur (pil : Pil) (intensity : ℚ) (h : Heap) (r : Ref) :
    Heap × Except PilErr Ref :=
  if intensity ≤ 0 then (h, .ok r)
  else
    match hget h r with
    | none => (h, .error ⟨"missing image".toList⟩)
    | some img =>
      match pil.gaussianBlur img (intensity * (1/2)) with
      | .error e => (h, .error e)
      | .ok blurredImg =>
        let a1 := alloc h blurredImg
        (a1.1, .ok a1.2)

/-- The per-pixel paper colour loop of _apply_paper_texture over one
    column: paper_color = randint(240, 255) per pixel. -/
def texture_col (n : Nat) (g : RngState) : List Pixel × RngState :=
  match n with
  | 0 => ([], g)
  | m + 1 =>
    let v := randint 240 255 g
    let rest := texture_col m v.2
    ((v.1.toNat, v.1.toNat, v.1.toNat, 255) :: rest.1, rest.2)

def texture_grid (w hgt : Nat) (g : RngState) : List (List Pixel) × RngState :=
  match w with
  | 0 => ([], g)
  | m + 1 =>
    let c := texture_col hgt g
    let rest := texture_grid m hgt c.2
    (c.1 :: rest.1, rest.2)

/-- EffectProcessor._apply_paper_texture (lines 180-213): the whole body is
    wrapped in its own try/except which logs a warning and returns the
    input image on failure — the only stage with local recovery. -/
def apply_paper_texture (pil : Pil) (g : RngState) (h : Heap) (r : Ref) :
    Heap × RngState × Ref :=
  match hget h r with
  | none => (h, g, r)
  | some img =>
    let sz := img_size img
    let paper0 := pil.newImg sz.1 sz.2 ("RGB".toList) ("white".toList)
    let a1 := alloc h paper0
    let tg := texture_grid sz.1 sz.2 g
    let paper1 : Img := ⟨paper0.mode, tg.1⟩
    let h2 := hset a1.1 a1.2 paper1
    match pil.convert img ("RGBA".toList) with
    | .error _ => (h2, tg.2, r)
    | .ok imgRgba =>
      let a3 := alloc h2 imgRgba
      match pil.convert paper1 ("RGBA".toList) with
      | .error _ => (a3.1, tg.2, r)
      | .ok paperRgba =>
        let a4 := alloc a3.1 paperRgba
        match pil.blend paperRgba imgRgba (mkRat 19 20) with
        | .error _ => (a4.1, tg.2, r)
        | .ok blended =>
          let a5 := alloc a4.1 blended
          match pil.convert blended ("RGB".toList) with
          | .error _ => (a5.1, tg.2, r)
          | .ok finalImg =>
            let a6 := alloc a5.1 finalImg
            (a6.1, tg.2, a6.2)

/-- EffectProcessor._adjust_brightness_contrast (lines 215-232). -/
def adjust_brightness_contrast (pil : Pil) (h : Heap) (r : Ref) :
    Heap × Except PilErr Ref :=
  match hget h r with
  | none => (h, .error ⟨"missing image".toList⟩)
  | some img =>
    match pil.enhanceBrightness img (mkRat 19 20) with
    | .error e => (h, .error e)
    | .ok bImg =>
      let a1 := alloc h bImg
      match pil.enhanceContrast bImg (mkRat 21 20) with
      | .error e => (a1.1, .error e)
      | .ok cImg =>
        let a2 := alloc a1.1 cImg
        (a2.1, .ok a2.2)

/-- EffectProcessor.apply_effects (lines 44-75): config lookup with the
    "limited" entry as default, early return of the input object for a
    disabled preset, image.copy() into a fresh cell, then the five stages
    in order.  The outer try/except turns any stage exception (including a
    missing intensity key) into a None result. -/
def apply_effects (pil : Pil) (g : RngState) (h : Heap) (image : Ref)
    (effect_style : Str) : Heap × RngState × Option Ref :=
  let limitedCfg : EffectConfig :=
    (effect_levels.lookup ("limited".toList)).getD ⟨false, none, none, none, none⟩
  let config := (effect_levels.lookup effect_style).getD limitedCfg
  if !config.enabled then (h, g, some image)
  else
    match hget h image with
    | none => (h, g, none)
    | some img =>
      let a0 := alloc h img
      match config.ink_spread, config.noise, config.blur with
      | some inkI, some noiseI, some blurI =>
        match apply_ink_spread pil inkI a0.1 a0.2 with
        | (h1, .error _) => (h1, g, none)
        | (h1, .ok r1) =>
          match apply_noise pil noiseI g h1 r1 with
          | (h2, g2, .error _) => (h2, g2, none)
          | (h2, g2, .ok r2) =>
            match apply_blur pil blurI h2 r2 with
            | (h3, .error _) => (h3, g2, none)
            | (h3, .ok r3) =>
              match apply_paper_texture pil g2 h3 r3 with
              | (h4, g4, r4) =>
                match adjust_brightness_contrast pil h4 r4 with
                | (h5, .error _) => (h5, g4, none)
                | (h5, .ok r5) => (h5, g4, some r5)
      | _, _, _ => (h, g, none)

/-- A fixed-width test font: 8 pixels per character, 16 pixels tall. -/
def font8 : FontM := ⟨fun s => (8 * s.length, 16)⟩

/-- A concrete ambient state of the global random generator. -/
def g0 : RngState := ⟨fun n => (n : Int), 0⟩

/-- A one-pixel white RGB canvas used as concrete test input. -/
def whiteImg : Img := ⟨"RGB".toList, [[(255, 255, 255, 255)]]⟩

/-- A concrete raster library in which every primitive succeeds. -/
def pilOk : Pil where
  convert := fun img _ => .ok img
  pointFn := fun img f _ => ⟨img.mode, img.px.map (fun col => col.map
    (fun p => (f p.1, f p.2.1, f p.2.2.1, p.2.2.2)))⟩
  gaussianBlur := fun img _ => .ok img
  newImg := fun w hgt mode _ => ⟨mode, List.replicate w (List.replicate hgt (255, 255, 255, 255))⟩
  pasteAt := fun _ src _ => src
  pasteMasked := fun _ src _ _ => src
  putalpha := fun img _ => img
  blend := fun _ img _ => .ok img
  enhanceBrightness := fun img _ => .ok img
  enhanceContrast := fun img _ => .ok img

/-- A raster library whose convert raises, the first primitive the ink-spread
    stage calls. -/
def pilConvFail : Pil := { pilOk with convert := fun _ _ => .error ⟨"convert failed".toList⟩ }

/-- A raster library whose blend raises: only the paper-texture stage calls
    blend, inside its own try/except. -/
def pilBlendFail : Pil := { pilOk with blend := fun _ _ _ => .error ⟨"blend failed".toList⟩ }

/-- A raster library whose convert raises only for mode RGBA: the ink-spread
    stage (convert to L) succeeds and the noise stage (convert to RGBA) is
    the first to fail. -/
def pilRgbaFail : Pil :=
  { pilOk with convert := fun img mode =>
      if mode = "RGBA".toList then .error ⟨"rgba convert failed".toList⟩ else .ok img }

/-!
Spec-side definitions, written from the words of spec.md for comparison
with the embedded source functions, plus concrete instantiations of the
external parameters used by counterexamples and witnesses.
-/

/-- Spec 4.1: estimated_width(text) = font_size * 0.5 * character_count. -/
def est_width (font_size : Nat) (line : Str) : ℚ :=
  (font_size : ℚ) * (1 / 2) * (line.length : ℚ)

/-- Spec 4.1: usable page width = page width minus both margins. -/
def usable_width (page_width margin : Nat) : ℚ :=
  (page_width : ℚ) - 2 * (margin : ℚ)

/-- The token list segmentation works from: jieba tokens on the CJK path,
    whitespace words otherwise. -/
def tokens_of (cut : Str → List Str) (paragraph : Str) : List Str :=
  if contains_chinese paragraph then cut paragraph else split_ws paragraph

/-- Spec 4.2: flatten paragraphs with exactly one blank separator line
    between consecutive paragraphs. -/
def spec_sep_join : List (List Str) → List Str
  | [] => []
  | [l] => l
  | l :: l' :: rest => l ++ [] :: spec_sep_join (l' :: rest)

/-- Adjacent lines are never both blank. -/
def NoTwoBlank (lines : List Str) : Prop :=
  List.Chain' (fun a b => ¬(a = [] ∧ b = [])) lines

/-- The only tokenization of a single-character string: jieba.cut returns
    the character itself. -/
def cut_single : Str → List Str := fun s => [s]

/-- jieba.cut on the text 你好。 : the dictionary word 你好 followed by the
    full stop token. -/
def cut_c5 : Str → List Str := fun _ => [("你好".toList), ("。".toList)]

/-- jieba.cut on the text 你。。 : the character 你, then each full stop as
    its own token (jieba emits non-Han punctuation character by character). -/
def cut_c6 : Str → List Str := fun _ => [("你".toList), ("。".toList), ("。".toList)]

/-- Two states of the global random generator that yield the same upcoming
    draws. -/
def RngAgree (g g' : RngState) : Prop :=
  ∀ k, g.stream (g.pos + k) = g'.stream (g'.pos + k)

/-- The amended width discipline of one produced line: its estimated width
    fits the usable width, or it is (a suffix of) a single input token
    placed alone, or it is a line extended by exactly one punctuation
    character by the CJK punctuation-retention step, whose trunk fits or is
    a token suffix. -/
def LineOk (fs pw m : Nat) (toks : List Str) (l : Str) : Prop :=
  est_width fs l ≤ usable_width pw m
  ∨ (∃ t ∈ toks, l <:+ t)
  ∨ (∃ s c, is_cjk_punct c = true ∧ l = s ++ [c]
      ∧ (est_width fs s ≤ usable_width pw m ∨ ∃ t ∈ toks, s <:+ t))

/-- Invariant of the CJK packing loop for an already-closed line. -/
def CjkLineOk (maxChars : Int) (W : List Str) (l : Str) : Prop :=
  ∃ s, (l = s ∨ ∃ c, is_cjk_punct c = true ∧ l = s ++ [c])
    ∧ ((s ≠ [] ∧ (s.length : Int) ≤ maxChars) ∨ ∃ t ∈ W, s <:+ t)

/-- Invariant of the CJK packing loop for the open buffer. -/
def CjkCurOk (maxChars : Int) (W : List Str) (cur : Str) : Prop :=
  cur = [] ∨ ((cur.length : Int) ≤ maxChars) ∨ ∃ t ∈ W, cur <:+ t

/-- Invariant of the non-CJK packing loop for an already-closed line. -/
def EnLineOk (maxChars : Int) (W : List Str) (l : Str) : Prop :=
  (l ≠ [] ∧ (l.length : Int) ≤ maxChars) ∨ l ∈ W

/-- Invariant of the non-CJK packing loop for the open buffer. -/
def EnCurOk (maxChars : Int) (W : List Str) (cur : Str) : Prop :=
  cur = [] ∨ ((cur.length : Int) ≤ maxChars) ∨ cur ∈ W

/-- The second heap extends the first: it is at least as long and every cell
    of the first is unchanged — the frame property of code that only
    allocates fresh images and writes to freshly allocated ones. -/
def HeapExt (h h' : Heap) : Prop :=
  h.length ≤ h'.length ∧ ∀ r < h.length, hget h' r = hget h r

/-!
Helper lemmas.
-/

theorem find_split_point_loop_some {t : Str} {L : List Nat} {i : Nat}
    (h : find_split_point_loop t L = some i) : 1 ≤ i := by
  induction L with
  | nil => simp [find_split_point_loop] at h
  | cons j rest ih =>
    unfold find_split_point_loop at h
    by_cases hj : j = 0
    · simp [hj] at h
    · rw [if_neg hj] at h
      by_cases hmark : ((t.get? (j - 1)).any (· ∈ split_marks)) = true
      · rw [if_pos hmark] at h
        cases h
        omega
      · rw [if_neg hmark] at h
        exact ih h

theorem find_split_point_pos {t : Str} {maxLen : Nat} (hm : 1 ≤ maxLen) (ht : t ≠ []) :
    1 ≤ find_split_point t maxLen := by
  unfold find_split_point
  by_cases hl : t.length ≤ maxLen
  · rw [if_pos hl]
    exact List.length_pos.mpr ht
  · rw [if_neg hl]
    cases hfs : find_split_point_loop t ((List.range 50).map (fun k => maxLen - k)) with
    | none => simp [hfs, hm]
    | some i => simpa [hfs] using find_split_point_loop_some hfs

theorem para_step_no_empty {maxLen : Nat} (hm : 1 ≤ maxLen) (st : List Str × Str)
    (raw : Str) (h : [] ∉ st.1) : [] ∉ (para_step maxLen st raw).1 := by
  unfold para_step
  by_cases hline : pyStrip raw = []
  · simp only [hline, if_pos rfl]
    by_cases hcur : st.2 ≠ []
    · simp [hcur, List.mem_append, h]
    · simpa [hcur] using h
  · rw [if_neg hline]
    by_cases hcond : st.2 ≠ [] ∧ st.2.length + (pyStrip raw).length + 1 > maxLen
    · rw [if_pos hcond]
      have hsp : 1 ≤ find_split_point (st.2 ++ [' '] ++ pyStrip raw) maxLen := by
        apply find_split_point_pos hm
        simp
      by_cases hgt : find_split_point (st.2 ++ [' '] ++ pyStrip raw) maxLen > st.2.length
      · rw [if_pos hgt]
        by_cases hidx : find_split_point (st.2 ++ [' '] ++ pyStrip raw) maxLen
            - ((pyStrip raw).take
                (find_split_point (st.2 ++ [' '] ++ pyStrip raw) maxLen - st.2.length - 1)).length
            - 1 < (pyStrip raw).length
        · rw [if_pos hidx]
          simp only [List.mem_append, List.mem_cons, List.mem_singleton]
          push_neg
          refine ⟨fun hmem => h hmem, ?_, ?_⟩
          · exact fun hc => hcond.1 hc.symm
          · refine ⟨?_, by simp⟩
            intro hdrop
            have := List.drop_eq_nil_iff.mp hdrop.symm
            omega
        · rw [if_neg hidx]
          simp only [List.mem_append, List.mem_singleton]
          push_neg
          exact ⟨fun hmem => h hmem, fun hc => hcond.1 hc.symm⟩
      · rw [if_neg hgt]
        simp only [List.mem_append, List.mem_singleton]
        push_neg
        refine ⟨fun hmem => h hmem, ?_⟩
        intro htake
        rcases List.take_eq_nil_iff.mp htake.symm with h0 | h0
        · omega
        · exact hcond.1 h0
    · rw [if_neg hcond]
      exact h

theorem paras_fold_no_empty {maxLen : Nat} (hm : 1 ≤ maxLen) :
    ∀ (raws : List Str) (st : List Str × Str), [] ∉ st.1 →
      [] ∉ (raws.foldl (para_step maxLen) st).1 := by
  intro raws
  induction raws with
  | nil => intro st h; simpa using h
  | cons raw rest ih =>
    intro st h
    simp only [List.foldl_cons]
    exact ih _ (para_step_no_empty hm st raw h)

/-!
Theorems for the claims.
-/

/-- C9: applying the effect pipeline with the disabled preset (the "none"
    style, enabled = false) returns the very canvas object that was passed
    in: heap, generator state and reference are all untouched, so the result
    is byte-identical to the input canvas. -/
theorem C9_theorem :
    ∀ (pil : Pil) (g : RngState) (h : Heap) (r : Ref),
      apply_effects pil g h r ("none".toList) = (h, g, some r) :=
  fun _ _ _ _ => rfl

/-- C8 counterexample: with a raster library whose convert call raises, the
    ink-spread stage (the first stage) fails and apply_effects returns None
    rather than the canvas produced before the failing stage. -/
theorem C8_counterexample :
    (apply_effects pilConvFail g0 [whiteImg] 0 ("limited".toList)).2.2 = none := by decide

/-- C8 amended: only the paper-texture stage degrades gracefully, and a
    failure in any other stage aborts apply_effects with None.  For every
    raster library, canvas and generator state: (1) _apply_paper_texture
    returns its input canvas — the canvas from before the stage — unless
    every raster primitive it calls succeeds; and for every enabled style
    whose three intensities are present, (2) an ink-spread failure, (3) a
    noise failure, (4) a blur failure and (5) a brightness/contrast failure
    each make apply_effects return None, while (6) whenever those four
    stages succeed the pipeline returns a canvas — whatever happened inside
    paper texture. -/
theorem C8_theorem :
    (∀ (pil : Pil) (g : RngState) (h : Heap) (r : Ref),
        (apply_paper_texture pil g h r).2.2 = r
        ∨ ∃ img imgRgba paperRgba blended finalImg,
            hget h r = some img
            ∧ pil.convert img ("RGBA".toList) = .ok imgRgba
            ∧ pil.convert ⟨(pil.newImg (img_size img).1 (img_size img).2 ("RGB".toList)
                  ("white".toList)).mode,
                (texture_grid (img_size img).1 (img_size img).2 g).1⟩ ("RGBA".toList)
              = .ok paperRgba
            ∧ pil.blend paperRgba imgRgba (mkRat 19 20) = .ok blended
            ∧ pil.convert blended ("RGB".toList) = .ok finalImg)
    ∧ (∀ (pil : Pil) (g : RngState) (h : Heap) (r : Ref) (style : Str) (img : Img)
          (inkI noiseI blurI : ℚ) (rot : Option ℚ) (h1 : Heap) (e : PilErr),
        effect_config style = ⟨true, some inkI, some noiseI, some blurI, rot⟩ →
        hget h r = some img →
        apply_ink_spread pil inkI (alloc h img).1 (alloc h img).2 = (h1, .error e) →
        (apply_effects pil g h r style).2.2 = none)
    ∧ (∀ (pil : Pil) (g : RngState) (h : Heap) (r : Ref) (style : Str) (img : Img)
          (inkI noiseI blurI : ℚ) (rot : Option ℚ) (h1 : Heap) (r1 : Ref)
          (h2 : Heap) (g2 : RngState) (e : PilErr),
        effect_config style = ⟨true, some inkI, some noiseI, some blurI, rot⟩ →
        hget h r = some img →
        apply_ink_spread pil inkI (alloc h img).1 (alloc h img).2 = (h1, .ok r1) →
        apply_noise pil noiseI g h1 r1 = (h2, g2, .error e) →
        (apply_effects pil g h r style).2.2 = none)
    ∧ (∀ (pil : Pil) (g : RngState) (h : Heap) (r : Ref) (style : Str) (img : Img)
          (inkI noiseI blurI : ℚ) (rot : Option ℚ) (h1 : Heap) (r1 : Ref)
          (h2 : Heap) (g2 : RngState) (r2 : Ref) (h3 : Heap) (e : PilErr),
        effect_config style = ⟨true, some inkI, some noiseI, some blurI, rot⟩ →
        hget h r = some img →
        apply_ink_spread pil inkI (alloc h img).1 (alloc h img).2 = (h1, .ok r1) →
        apply_noise pil noiseI g h1 r1 = (h2, g2, .ok r2) →
        apply_blur pil blurI h2 r2 = (h3, .error e) →
        (apply_effects pil g h r style).2.2 = none)
    ∧ (∀ (pil : Pil) (g : RngState) (h : Heap) (r : Ref) (style : Str) (img : Img)
          (inkI noiseI blurI : ℚ) (rot : Option ℚ) (h1 : Heap) (r1 : Ref)
          (h2 : Heap) (g2 : RngState) (r2 : Ref) (h3 : Heap) (r3 : Ref)
          (h5 : Heap) (e : PilErr),
        effect_config style = ⟨true, some inkI, some noiseI, some blurI, rot⟩ →
        hget h r = some img →
        apply_ink_spread pil inkI (alloc h img).1 (alloc h img).2 = (h1, .ok r1) →
        apply_noise pil noiseI g h1 r1 = (h2, g2, .ok r2) →
        apply_blur pil blurI h2 r2 = (h3, .ok r3) →
        adjust_brightness_contrast pil (apply_paper_texture pil g2 h3 r3).1
          (apply_paper_texture pil g2 h3 r3).2.2 = (h5, .error e) →
        (apply_effects pil g h r style).2.2 = none)
    ∧ (∀ (pil : Pil) (g : RngState) (h : Heap) (r : Ref) (style : Str) (img : Img)
          (inkI noiseI blurI : ℚ) (rot : Option ℚ) (h1 : Heap) (r1 : Ref)
          (h2 : Heap) (g2 : RngState) (r2 : Ref) (h3 : Heap) (r3 : Ref)
          (h5 : Heap) (r5 : Ref),
        effect_config style = ⟨true, some inkI, some noiseI, some blurI, rot⟩ →
        hget h r = some img →
        apply_ink_spread pil inkI (alloc h img).1 (alloc h img).2 = (h1, .ok r1) →
        apply_noise pil noiseI g h1 r1 = (h2, g2, .ok r2) →
        apply_blur pil blurI h2 r2 = (h3, .ok r3) →
        adjust_brightness_contrast pil (apply_paper_texture pil g2 h3 r3).1
          (apply_paper_texture pil g2 h3 r3).2.2 = (h5, .ok r5) →
        (apply_effects pil g h r style).2.2 = some r5) := by
  refine ⟨?_, ?_, ?_, ?_, ?_, ?_⟩
  · intro pil g h r
    unfold apply_paper_texture
    split
    · left; rfl
    · rename_i img himg
      try dsimp only
      split
      · left; rfl
      · rename_i imgRgba hconv1
        try dsimp only
        split
        · left; rfl
        · rename_i paperRgba hconv2
          try dsimp only
          split
          · left; rfl
          · rename_i blended hblend
            try dsimp only
            split
            · left; rfl
            · rename_i finalImg hconv3
              right
              exact ⟨img, imgRgba, paperRgba, blended, finalImg, himg,
                hconv1, hconv2, hblend, hconv3⟩
  · intro pil g h r style img inkI noiseI blurI rot h1 e hcfg himg hink
    unfold apply_effects
    dsimp only
    unfold effect_config at hcfg
    rw [hcfg, himg]
    simp only [Bool.not_true]
    rw [if_neg (by decide : ¬ false = true)]
    try dsimp only
    rw [hink]
  · intro pil g h r style img inkI noiseI blurI rot h1 r1 h2 g2 e hcfg himg hink hnoise
    unfold apply_effects
    dsimp only
    unfold effect_config at hcfg
    rw [hcfg, himg]
    simp only [Bool.not_true]
    rw [if_neg (by decide : ¬ false = true)]
    try dsimp only
    rw [hink]
    try dsimp only
    rw [hnoise]
  · intro pil g h r style img inkI noiseI blurI rot h1 r1 h2 g2 r2 h3 e
      hcfg himg hink hnoise hblur
    unfold apply_effects
    dsimp only
    unfold effect_config at hcfg
    rw [hcfg, himg]
    simp only [Bool.not_true]
    rw [if_neg (by decide : ¬ false = true)]
    try dsimp only
    rw [hink]
    try dsimp only
    rw [hnoise]
    try dsimp only
    rw [hblur]
  · intro pil g h r style img inkI noiseI blurI rot h1 r1 h2 g2 r2 h3 r3 h5 e
      hcfg himg hink hnoise hblur hbc
    unfold apply_effects
    dsimp only
    unfold effect_config at hcfg
    rw [hcfg, himg]
    simp only [Bool.not_true]
    rw [if_neg (by decide : ¬ false = true)]
    try dsimp only
    rw [hink]
    try dsimp only
    rw [hnoise]
    try dsimp only
    rw [hblur]
    try dsimp only
    rw [hbc]
  · intro pil g h r style img inkI noiseI blurI rot h1 r1 h2 g2 r2 h3 r3 h5 r5
      hcfg himg hink hnoise hblur hbc
    unfold apply_effects
    dsimp only
    unfold effect_config at hcfg
    rw [hcfg, himg]
    simp only [Bool.not_true]
    rw [if_neg (by decide : ¬ false = true)]
    try dsimp only
    rw [hink]
    try dsimp only
    rw [hnoise]
    try dsimp only
    rw [hblur]
    try dsimp only
    rw [hbc]

/-- C8 witness: with a raster library whose RGBA conversion raises, the
    ink-spread stage succeeds but the noise stage fails, and apply_effects
    returns None rather than the canvas from before the noise stage. -/
theorem C8_witness :
    (apply_effects pilRgbaFail g0 [whiteImg] 0 ("limited".toList)).2.2 = none :=
  C8_theorem.2.2.1 pilRgbaFail g0 [whiteImg] 0 ("limited".toList) whiteImg
    (mkRat 1 10) (mkRat 1 20) (mkRat 1 2) (some (mkRat 1 2))
    (apply_ink_spread pilRgbaFail (mkRat 1 10) (alloc [whiteImg] whiteImg).1
      (alloc [whiteImg] whiteImg).2).1 5
    (apply_noise pilRgbaFail (mkRat 1 20) g0
      (apply_ink_spread pilRgbaFail (mkRat 1 10) (alloc [whiteImg] whiteImg).1
        (alloc [whiteImg] whiteImg).2).1 5).1
    (apply_noise pilRgbaFail (mkRat 1 20) g0
      (apply_ink_spread pilRgbaFail (mkRat 1 10) (alloc [whiteImg] whiteImg).1
        (alloc [whiteImg] whiteImg).2).1 5).2.1
    ⟨"rgba convert failed".toList⟩
    (by rfl) (by rfl) (by rfl) (by rfl)

/-- C1 amended: generate_handwriting draws all lines onto one fixed A5
    canvas and returns that single image, so the number of page images it
    produces is 1 for every text, style and generator state — it is not tied
    to the page-count estimator. -/
theorem C1_theorem :
    ∀ (font : FontM) (style : Str) (fs : Nat) (lsp : ℚ) (m : Nat) (text : Str) (g : RngState),
      (generate_handwriting font style fs lsp m text g).1.toList.length = 1 :=
  fun _ _ _ _ _ _ _ => rfl

/-- C1 counterexample: for the text a\n\nb at font size 1200 on the A5 page
    the estimator reports 2 pages, but the render operation produces exactly
    1 page image, so the claimed equality fails. -/
theorem C1_counterexample :
    (generate_handwriting font8 ("limited".toList) 1200 (mkRat 3 2) 30
      ("a\n\nb".toList) g0).1.toList.length = 1
    ∧ estimate_page_count cut_single ("a\n\nb".toList) 1200 1748 2480 30 5 = some 2
    ∧ (1 : Nat) ≠ 2 :=
  ⟨rfl, by decide, by decide⟩

theorem split_paragraph_some (cut : Str → List Str) (p : Str) {fs : Nat} (pw m : Nat)
    (hfs : 0 < fs) : ∃ L, split_paragraph_to_lines cut p fs pw m = some L := by
  unfold split_paragraph_to_lines
  by_cases hp : p = []
  · exact ⟨[], by rw [if_pos hp]⟩
  · rw [if_neg hp, if_neg (by omega)]
    try dsimp only
    split
    · exact ⟨_, rfl⟩
    · exact ⟨_, rfl⟩

theorem mapM_splits_some (cut : Str → List Str) {fs : Nat} (pw m : Nat) (hfs : 0 < fs) :
    ∀ ps : List Str,
      ∃ Ls, ps.mapM (fun p => split_paragraph_to_lines cut p fs pw m) = some Ls := by
  intro ps
  induction ps with
  | nil => exact ⟨[], rfl⟩
  | cons p rest ih =>
    obtain ⟨L, hL⟩ := split_paragraph_some cut p pw m hfs
    obtain ⟨Ls, hLs⟩ := ih
    exact ⟨L :: Ls, by rw [List.mapM_cons, hL, hLs]; rfl⟩

theorem add_line_breaks_some (cut : Str → List Str) (text : Str) {fs : Nat}
    (pw m ls : Nat) (hfs : 0 < fs) :
    ∃ p, add_line_breaks_for_handwriting cut text fs pw m ls = some p := by
  obtain ⟨Ls, hLs⟩ := mapM_splits_some cut pw m hfs (split_text_to_paragraphs text 200)
  cases hadd : add_line_breaks_for_handwriting cut text fs pw m ls with
  | some p => exact ⟨p, rfl⟩
  | none =>
    exfalso
    unfold add_line_breaks_for_handwriting at hadd
    dsimp only at hadd
    rw [hLs] at hadd
    simp at hadd

/-- C3 amended: estimate_page_count computes max_lines_per_page as the
    truncation of available_height / line_height with no minimum-1 clamp;
    for any positive font size it fails with ZeroDivisionError (modelled
    none) exactly when that truncation is zero, and whenever it does return
    a value that value is at least 1. -/
theorem C3_theorem :
    ∀ (cut : Str → List Str) (text : Str) (fs pw ph m ls : Nat),
      (0 < fs →
        (estimate_page_count cut text fs pw ph m ls = none
          ↔ Int.tdiv ((ph : Int) - 2 * (m : Int)) ((fs : Int) + (ls : Int)) = 0))
      ∧ ∀ k, estimate_page_count cut text fs pw ph m ls = some k → 1 ≤ k := by
  intro cut text fs pw ph m ls
  constructor
  · intro hfs
    unfold estimate_page_count
    rw [if_neg (by omega : ¬ ((fs : Int) + (ls : Int) = 0))]
    obtain ⟨p, hp⟩ := add_line_breaks_some cut text pw m ls hfs
    rw [hp]
    by_cases h2 : Int.tdiv ((ph : Int) - 2 * (m : Int)) ((fs : Int) + (ls : Int)) = 0
    · simp [h2]
    · simp [h2]
  · intro k hk
    unfold estimate_page_count at hk
    by_cases h1 : ((fs : Int) + (ls : Int)) = 0
    · rw [if_pos h1] at hk
      exact absurd hk (by simp)
    · rw [if_neg h1] at hk
      cases hadd : add_line_breaks_for_handwriting cut text fs pw m ls with
      | none =>
        rw [hadd] at hk
        exact absurd hk (by simp)
      | some p =>
        rw [hadd] at hk
        by_cases h2 : Int.tdiv ((ph : Int) - 2 * (m : Int)) ((fs : Int) + (ls : Int)) = 0
        · simp [h2] at hk
        · simp [h2] at hk
          rw [← hk]
          exact le_max_left _ _

/-- C3 witness: at a concrete positive font size the failure
    characterization holds and the returned page count is at least 1. -/
theorem C3_witness :
    (estimate_page_count cut_single ("a".toList) 16 800 1000 30 5 = none
      ↔ Int.tdiv ((1000 : Int) - 2 * (30 : Int)) ((16 : Int) + (5 : Int)) = 0)
    ∧ (1 : Int) ≤ 1 :=
  ⟨(C3_theorem cut_single ("a".toList) 16 800 1000 30 5).1 (by decide),
   (C3_theorem cut_single ("a".toList) 16 800 1000 30 5).2 1 (by decide)⟩

/-- C3 counterexample: font_size 50, line_spacing 5 and page_height 100 with
    margin 30 give max_lines_per_page = int(40 / 55) = 0, and
    estimate_page_count raises ZeroDivisionError instead of returning 1. -/
theorem C3_counterexample :
    estimate_page_count cut_single ("a".toList) 50 800 100 30 5 = none := by decide

/-- C4 amended: a blank input line only terminates the current paragraph and
    is then dropped — the paragraph list produced by split_text_to_paragraphs
    never contains an empty paragraph (for any positive maximum paragraph
    length, in particular the default 200). -/
theorem C4_theorem :
    ∀ (text : Str) (maxLen : Nat), 1 ≤ maxLen →
      [] ∉ split_text_to_paragraphs text maxLen := by
  intro text maxLen hm
  unfold split_text_to_paragraphs
  by_cases ht : text = []
  · simp [ht]
  · rw [if_neg ht]
    have hfold := paras_fold_no_empty hm (split_nl text) ([], []) (by simp)
    by_cases hc : ((split_nl text).foldl (para_step maxLen) ([], [])).2 ≠ []
    · rw [if_pos hc]
      intro hmem
      rcases List.mem_append.mp hmem with h0 | h0
      · exact hfold h0
      · exact hc (List.mem_singleton.mp h0).symm
    · rw [if_neg hc]
      exact hfold

/-- C4 witness: the default maximum paragraph length is positive, and for
    the text A-blank line-B the output contains no empty paragraph. -/
theorem C4_witness : [] ∉ split_text_to_paragraphs ("A\n\nB".toList) 200 :=
  C4_theorem ("A\n\nB".toList) 200 (by decide)

/-- C4 counterexample: the input A\n\nB contains one blank line, yet the
    paragraph list is exactly [A, B] — the blank line is dropped, not
    preserved as an empty paragraph marker between them. -/
theorem C4_counterexample :
    split_text_to_paragraphs ("A\n\nB".toList) 200 = [("A".toList), ("B".toList)] := by decide

/-- C6 amended: the punctuation-retention step fires only when the line
    being closed is non-empty: in that case the leading punctuation
    character of the overflowing token is appended to the closed line and
    the remainder of the token starts the new line.  (Lines may still begin
    with punctuation, as the counterexample shows.) -/
theorem C6_theorem :
    ∀ (lines : List Str) (cur : Str) (c : Char) (rest : Str) (maxChars : Int),
      ((cur.length : Int) + ((c :: rest).length : Int) > maxChars) →
      is_cjk_punct c = true → cur ≠ [] →
      cjk_step maxChars (lines, cur) (c :: rest) = (lines ++ [cur ++ [c]], rest) := by
  intro lines cur c rest maxChars hover hp hc
  unfold cjk_step
  rw [if_pos hover]
  have hmem : c ∈ (c :: rest).filter is_cjk_punct := by
    simp [List.filter_cons, hp]
  simp [hmem, hc]

/-- C6 witness: with a full line 你 of capacity 1, the overflowing token 。
    has its punctuation character appended to the closed line and the (empty)
    remainder starts the new line. -/
theorem C6_witness :
    cjk_step 1 ([], ("你".toList)) ("。".toList) = ([("你。".toList)], []) :=
  C6_theorem [] ("你".toList) '。' [] 1 (by decide) (by decide) (by decide)

/-- C6 counterexample: on the text 你。。 (jieba tokens 你 / 。 / 。) with a
    one-character line capacity, the CJK segmentation produces the lines
    你。 and 。 — the second line begins with a punctuation character,
    contradicting the claim that no line starts with punctuation. -/
theorem C6_counterexample :
    split_paragraph_to_lines cut_c6 ("你。。".toList) 16 68 30
      = some [("你。".toList), ("。".toList)]
    ∧ (("。".toList).head? = some '。' ∧ is_cjk_punct '。' = true) := by decide

theorem rng_next_agree_fst {g g' : RngState} (h : RngAgree g g') :
    (rng_next g).1 = (rng_next g').1 := by
  simpa [rng_next] using h 0

theorem rng_next_agree_snd {g g' : RngState} (h : RngAgree g g') :
    RngAgree (rng_next g).2 (rng_next g').2 := by
  intro k
  simpa [rng_next, Nat.add_assoc] using h (1 + k)

theorem randint_agree {a b : Int} {g g' : RngState} (h : RngAgree g g') :
    (randint a b g).1 = (randint a b g').1
    ∧ RngAgree (randint a b g).2 (randint a b g').2 := by
  constructor
  · simp only [randint]
    rw [rng_next_agree_fst h]
  · simp only [randint]
    exact rng_next_agree_snd h

theorem rand_uniform_agree {a b : ℚ} {g g' : RngState} (h : RngAgree g g') :
    (rand_uniform a b g).1 = (rand_uniform a b g').1
    ∧ RngAgree (rand_uniform a b g).2 (rand_uniform a b g').2 := by
  constructor
  · simp only [rand_uniform]
    rw [rng_next_agree_fst h]
  · simp only [rand_uniform]
    exact rng_next_agree_snd h

theorem draw_line_agree (es : Str) (sy lh : Int) (lsp : ℚ) (m : Nat) (i : Nat) (line : Str)
    {g g' : RngState} (h : RngAgree g g') :
    (draw_line es sy lh lsp m i line g).1 = (draw_line es sy lh lsp m i line g').1
    ∧ RngAgree (draw_line es sy lh lsp m i line g).2 (draw_line es sy lh lsp m i line g').2 := by
  have e1 := (randint_agree (a := -2) (b := 2) h).1
  have h1 := (randint_agree (a := -2) (b := 2) h).2
  have e2 := (randint_agree (a := -1) (b := 1) h1).1
  have h2 := (randint_agree (a := -1) (b := 1) h1).2
  have e3 := (rand_uniform_agree (a := -(1/2)) (b := 1/2) h2).1
  have h3 := (rand_uniform_agree (a := -(1/2)) (b := 1/2) h2).2
  unfold draw_line
  by_cases hes : es = "natural".toList
  · simp only [hes, if_true, eq_self_iff_true, if_pos]
    exact ⟨by rw [e1, e2, e3], h3⟩
  · simp only [if_neg hes]
    exact ⟨by rw [e1, e2], h2⟩

theorem draw_lines_agree (es : Str) (sy lh : Int) (lsp : ℚ) (m : Nat) :
    ∀ (L : List (Nat × Str)) {g g' : RngState}, RngAgree g g' →
      (draw_lines es sy lh lsp m L g).1 = (draw_lines es sy lh lsp m L g').1
      ∧ RngAgree (draw_lines es sy lh lsp m L g).2 (draw_lines es sy lh lsp m L g').2 := by
  intro L
  induction L with
  | nil => exact fun h => ⟨rfl, h⟩
  | cons p rest ih =>
    intro g g' h
    obtain ⟨i, line⟩ := p
    have hd := draw_line_agree es sy lh lsp m i line h
    have tl := ih hd.2
    constructor
    · simp only [draw_lines]
      rw [hd.1, tl.1]
    · simp only [draw_lines]
      exact tl.2

/-- C2 amended: the render operation accepts no seed; all its randomization
    is drawn from the shared global random generator.  The output image is a
    function of the upcoming draws of that generator: two invocations seeing
    the same upcoming draws produce pixel-identical images, while two
    successive invocations (the second continuing the global stream where
    the first left it) can produce different images for the same text and
    style. -/
theorem C2_theorem :
    (∀ (font : FontM) (style : Str) (fs : Nat) (lsp : ℚ) (m : Nat) (text : Str)
        (g g' : RngState), RngAgree g g' →
        (generate_handwriting font style fs lsp m text g).1
          = (generate_handwriting font style fs lsp m text g').1)
    ∧ ∃ g1 : RngState,
        (generate_handwriting font8 ("limited".toList) 12 (mkRat 3 2) 10 ("a".toList) g1).1
        ≠ (generate_handwriting font8 ("limited".toList) 12 (mkRat 3 2) 10 ("a".toList)
            (generate_handwriting font8 ("limited".toList) 12 (mkRat 3 2) 10 ("a".toList) g1).2).1 := by
  constructor
  · intro font style fs lsp m text g g' h
    unfold generate_handwriting
    simp only
    rw [(draw_lines_agree _ _ _ _ _ _ h).1]
  · exact ⟨g0, by decide⟩

/-- C2 witness: the determinism half of the amended claim applied at a
    concrete state agreeing with itself. -/
theorem C2_witness :
    (generate_handwriting font8 ("limited".toList) 12 (mkRat 3 2) 10 ("a".toList) g0).1
    = (generate_handwriting font8 ("limited".toList) 12 (mkRat 3 2) 10 ("a".toList) g0).1 :=
  C2_theorem.1 font8 ("limited".toList) 12 (mkRat 3 2) 10 ("a".toList) g0 g0 (fun _ => rfl)

/-- C2 counterexample: no seed can be supplied — the generator has no seed
    parameter and never seeds the global random module — and two successive
    invocations of the render on the same text and style, threading the
    global generator state, produce different images (the first line's x
    offset differs). -/
theorem C2_counterexample :
    (generate_handwriting font8 ("limited".toList) 12 (mkRat 3 2) 10 ("a".toList) g0).1
    ≠ (generate_handwriting font8 ("limited".toList) 12 (mkRat 3 2) 10 ("a".toList)
        (generate_handwriting font8 ("limited".toList) 12 (mkRat 3 2) 10 ("a".toList) g0).2).1 := by
  decide

theorem foldl_append_sep (L : List (List Str)) (acc : List Str) :
    L.foldl (fun acc l => acc ++ l ++ [[]]) acc
      = acc ++ (L.map (fun l => l ++ [[]])).flatten := by
  induction L generalizing acc with
  | nil => simp
  | cons l rest ih =>
    rw [List.foldl_cons, ih]
    simp [List.append_assoc]

theorem join_map_sep_eq :
    ∀ (L : List (List Str)), L ≠ [] →
      (L.map (fun l => l ++ [[]])).flatten = spec_sep_join L ++ [[]]
  | [], h => absurd rfl h
  | [l], _ => by simp [spec_sep_join]
  | l :: l' :: rest, _ => by
    have ih := join_map_sep_eq (l' :: rest) (by simp)
    simp only [List.map_cons, List.flatten_cons, spec_sep_join] at ih ⊢
    rw [ih]
    simp [List.append_assoc]

theorem spec_sep_join_ne_nil :
    ∀ (l : List Str) (rest : List (List Str)), l ≠ [] → spec_sep_join (l :: rest) ≠ [] := by
  intro l rest hl
  cases rest with
  | nil => simpa [spec_sep_join] using hl
  | cons l' rest' => simp [spec_sep_join]

theorem add_line_breaks_eq_sep_join :
    ∀ (cut : Str → List Str) (text : Str) (fs pw m ls : Nat) (liness : List (List Str)),
      (split_text_to_paragraphs text 200).mapM
        (fun p => split_paragraph_to_lines cut p fs pw m) = some liness →
      add_line_breaks_for_handwriting cut text fs pw m ls
        = some (spec_sep_join liness, (spec_sep_join liness).length) := by
  intro cut text fs pw m ls liness hmap
  unfold add_line_breaks_for_handwriting
  dsimp only
  rw [hmap]
  try dsimp only
  rw [foldl_append_sep, List.nil_append]
  cases liness with
  | nil => simp [spec_sep_join]
  | cons l rest =>
    rw [join_map_sep_eq _ (by simp)]
    rw [if_pos ⟨by simp, List.getLast?_concat _⟩]
    rw [List.dropLast_concat ..]

theorem chain'_of_no_blank {l : List Str} (h : [] ∉ l) : NoTwoBlank l := by
  apply List.Pairwise.chain'
  apply List.pairwise_of_forall_mem_list
  intro a ha _ _ hab
  exact h (hab.1 ▸ ha)

theorem spec_sep_join_shape :
    ∀ (L : List (List Str)), (∀ l ∈ L, l ≠ [] ∧ [] ∉ l) →
      NoTwoBlank (spec_sep_join L)
      ∧ (spec_sep_join L).head? ≠ some []
      ∧ (spec_sep_join L).getLast? ≠ some []
  | [], _ => by simp [spec_sep_join, NoTwoBlank]
  | [l], h => by
    have hl := h l (by simp)
    refine ⟨chain'_of_no_blank hl.2, ?_, ?_⟩
    · simp only [spec_sep_join]
      intro hh
      exact hl.2 (List.mem_of_mem_head? hh)
    · simp only [spec_sep_join]
      intro hh
      exact hl.2 (List.mem_of_getLast?_eq_some hh)
  | l :: l' :: rest, h => by
    have hl := h l (by simp)
    have hl' : l' ≠ [] := (h l' (by simp)).1
    have ih := spec_sep_join_shape (l' :: rest) (fun x hx => h x (List.mem_cons_of_mem l hx))
    have hS : spec_sep_join (l' :: rest) ≠ [] := spec_sep_join_ne_nil l' rest hl'
    refine ⟨?_, ?_, ?_⟩
    · show List.Chain' _ (l ++ [] :: spec_sep_join (l' :: rest))
      rw [List.chain'_append]
      refine ⟨chain'_of_no_blank hl.2, ?_, ?_⟩
      · rw [List.chain'_cons']
        refine ⟨?_, ih.1⟩
        intro y hy hcontra
        exact ih.2.1 (hcontra.2 ▸ hy)
      · intro x hx y _ hcontra
        exact hl.2 (hcontra.1 ▸ List.mem_of_getLast?_eq_some hx)
    · show (l ++ [] :: spec_sep_join (l' :: rest)).head? ≠ some []
      cases l with
      | nil => exact absurd rfl hl.1
      | cons a t =>
        simp only [List.cons_append, List.head?_cons]
        intro hh
        have ha : a = [] := by simpa using hh
        exact hl.2 (ha ▸ List.mem_cons_self a t)
    · show (l ++ [] :: spec_sep_join (l' :: rest)).getLast? ≠ some []
      rw [List.getLast?_append_of_ne_nil _ (by simp)]
      cases hS2 : spec_sep_join (l' :: rest) with
      | nil => exact absurd hS2 hS
      | cons s S' =>
        rw [List.getLast?_cons_cons]
        exact hS2 ▸ ih.2.2

/-- C7 amended: the flattened line list equals the paragraphs' line lists
    joined with exactly one blank separator line between consecutive
    paragraphs (the concrete inputs A-blank-B and A-blank-blank-B both give
    lines A, one blank, B); and whenever every paragraph produces at least
    one line and no blank line — which holds on the whole non-CJK path —
    the flattened list has no two consecutive blanks and no leading or
    trailing blank.  On the CJK path a paragraph can itself produce blank
    lines, and then the claimed invariant fails (see the counterexample). -/
theorem C7_theorem :
    (∀ cut : Str → List Str,
        add_line_breaks_for_handwriting cut ("A\n\nB".toList) 16 800 30 5
          = some ([("A".toList), [], ("B".toList)], 3)
        ∧ add_line_breaks_for_handwriting cut ("A\n\n\nB".toList) 16 800 30 5
          = some ([("A".toList), [], ("B".toList)], 3))
    ∧ (∀ (cut : Str → List Str) (text : Str) (fs pw m ls : Nat)
          (liness : List (List Str)),
        (split_text_to_paragraphs text 200).mapM
          (fun p => split_paragraph_to_lines cut p fs pw m) = some liness →
        add_line_breaks_for_handwriting cut text fs pw m ls
          = some (spec_sep_join liness, (spec_sep_join liness).length))
    ∧ (∀ (cut : Str → List Str) (text : Str) (fs pw m ls : Nat)
          (liness : List (List Str)),
        (split_text_to_paragraphs text 200).mapM
          (fun p => split_paragraph_to_lines cut p fs pw m) = some liness →
        (∀ lines ∈ liness, lines ≠ [] ∧ [] ∉ lines) →
        ∀ (L : List Str) (n : Nat),
          add_line_breaks_for_handwriting cut text fs pw m ls = some (L, n) →
          NoTwoBlank L ∧ L.head? ≠ some [] ∧ L.getLast? ≠ some []) := by
  refine ⟨fun cut => ⟨rfl, rfl⟩, add_line_breaks_eq_sep_join, ?_⟩
  intro cut text fs pw m ls liness hmap hlines L n hadd
  rw [add_line_breaks_eq_sep_join cut text fs pw m ls liness hmap] at hadd
  have hL : L = spec_sep_join liness := by
    simpa using (congrArg (fun o => Option.map Prod.fst o) hadd).symm
  rw [hL]
  exact spec_sep_join_shape liness hlines

/-- C7 witness: at the concrete input A-blank line-B every paragraph
    produces one non-blank line, and the flattened list has no double
    blank and no leading or trailing blank. -/
theorem C7_witness :
    NoTwoBlank [("A".toList), [], ("B".toList)]
    ∧ ([("A".toList), [], ("B".toList)] : List Str).head? ≠ some []
    ∧ ([("A".toList), [], ("B".toList)] : List Str).getLast? ≠ some [] :=
  C7_theorem.2.2 cut_single ("A\n\nB".toList) 16 800 30 5
    [[("A".toList)], [("B".toList)]] (by decide) (by decide)
    [("A".toList), [], ("B".toList)] 3 (by decide)

/-- C7 counterexample: for the single-character CJK text 中 on a page whose
    usable width is zero (page width 100, margin 50), the CJK packing loop
    closes an empty buffer before the overflowing token, and the flattened
    line list starts with a blank line — contradicting the claim that no
    blank line appears at the start. -/
theorem C7_counterexample :
    add_line_breaks_for_handwriting cut_single ("中".toList) 16 100 50 5
      = some ([[], ("中".toList)], 2)
    ∧ ([[], ("中".toList)] : List Str).head? = some [] := by decide

theorem cjk_closed_ok {maxChars : Int} {W : List Str} {cur : Str} {w : Str}
    (hwW : w ∈ W) (hcur : CjkCurOk maxChars W cur) : CjkLineOk maxChars W cur := by
  by_cases hnil : cur = []
  · exact ⟨cur, Or.inl rfl, Or.inr ⟨w, hwW, by rw [hnil]; exact List.nil_suffix⟩⟩
  · rcases hcur with h | h | h
    · exact absurd h hnil
    · exact ⟨cur, Or.inl rfl, Or.inl ⟨hnil, h⟩⟩
    · exact ⟨cur, Or.inl rfl, Or.inr h⟩

theorem cjk_closed_punct_ok {maxChars : Int} {W : List Str} {cur : Str} {c : Char}
    (hp : is_cjk_punct c = true) (hnil : cur ≠ []) (hcur : CjkCurOk maxChars W cur) :
    CjkLineOk maxChars W (cur ++ [c]) := by
  rcases hcur with h | h | h
  · exact absurd h hnil
  · exact ⟨cur, Or.inr ⟨c, hp, rfl⟩, Or.inl ⟨hnil, h⟩⟩
  · exact ⟨cur, Or.inr ⟨c, hp, rfl⟩, Or.inr h⟩

theorem cjk_fold_inv (maxChars : Int) (W : List Str) :
    ∀ (ws : List Str) (lines : List Str) (cur : Str),
      (∀ w ∈ ws, w ∈ W) →
      CjkCurOk maxChars W cur →
      (∀ l ∈ lines, CjkLineOk maxChars W l) →
      (∀ l ∈ (ws.foldl (cjk_step maxChars) (lines, cur)).1, CjkLineOk maxChars W l)
      ∧ CjkCurOk maxChars W (ws.foldl (cjk_step maxChars) (lines, cur)).2 := by
  intro ws
  induction ws with
  | nil =>
    intro lines cur _ hcur hlines
    exact ⟨hlines, hcur⟩
  | cons w rest ih =>
    intro lines cur hsub hcur hlines
    have hwW : w ∈ W := hsub w (by simp)
    have hsub' : ∀ x ∈ rest, x ∈ W := fun x hx => hsub x (by simp [hx])
    rw [List.foldl_cons]
    have happend : ∀ l ∈ lines ++ [cur], CjkLineOk maxChars W l := by
      intro l hl
      rcases List.mem_append.mp hl with h | h
      · exact hlines l h
      · rw [List.mem_singleton.mp h]
        exact cjk_closed_ok hwW hcur
    cases w with
    | nil =>
      by_cases hover : ((cur.length : Int) + (([] : Str).length : Int) > maxChars)
      · have hstep : cjk_step maxChars (lines, cur) [] = (lines ++ [cur], []) := by
          simp only [cjk_step]
          rw [if_pos hover]
        rw [hstep]
        exact ih _ _ hsub' (Or.inl rfl) happend
      · have hstep : cjk_step maxChars (lines, cur) [] = (lines, cur ++ []) := by
          simp only [cjk_step]
          rw [if_neg hover]
        rw [hstep, List.append_nil]
        exact ih _ _ hsub' hcur hlines
    | cons c rest' =>
      by_cases hover : ((cur.length : Int) + ((c :: rest').length : Int) > maxChars)
      · by_cases hp : is_cjk_punct c = true
        · by_cases hcnil : cur ≠ []
          · have hstep : cjk_step maxChars (lines, cur) (c :: rest')
                = (lines ++ [cur ++ [c]], rest') := by
              simp only [cjk_step]
              rw [if_pos hover]
              simp [List.filter_cons, hp, hcnil]
            rw [hstep]
            apply ih _ _ hsub' (Or.inr (Or.inr ⟨c :: rest', hwW, List.suffix_cons c rest'⟩))
            intro l hl
            rcases List.mem_append.mp hl with h | h
            · exact hlines l h
            · rw [List.mem_singleton.mp h]
              exact cjk_closed_punct_ok hp hcnil hcur
          · have hstep : cjk_step maxChars (lines, cur) (c :: rest')
                = (lines ++ [cur], c :: rest') := by
              simp only [cjk_step]
              rw [if_pos hover]
              simp [List.filter_cons, hp, hcnil]
            rw [hstep]
            exact ih _ _ hsub' (Or.inr (Or.inr ⟨c :: rest', hwW, List.suffix_refl _⟩)) happend
        · have hstep : cjk_step maxChars (lines, cur) (c :: rest')
              = (lines ++ [cur], c :: rest') := by
            simp only [cjk_step]
            rw [if_pos hover]
            have : ¬ (c ∈ (c :: rest').filter is_cjk_punct) := by
              intro hmem
              exact hp (List.mem_filter.mp hmem).2
            simp [this]
          rw [hstep]
          exact ih _ _ hsub' (Or.inr (Or.inr ⟨c :: rest', hwW, List.suffix_refl _⟩)) happend
      · have hstep : cjk_step maxChars (lines, cur) (c :: rest')
            = (lines, cur ++ (c :: rest')) := by
          simp only [cjk_step]
          rw [if_neg hover]
        rw [hstep]
        apply ih _ _ hsub' _ hlines
        right; left
        push_cast [List.length_append]
        push_cast at hover
        omega

theorem en_fold_inv (maxChars : Int) (W : List Str) :
    ∀ (ws : List Str) (lines : List Str) (cur : Str),
      (∀ w ∈ ws, w ∈ W) →
      EnCurOk maxChars W cur →
      (∀ l ∈ lines, EnLineOk maxChars W l) →
      (∀ l ∈ (ws.foldl (en_step maxChars) (lines, cur)).1, EnLineOk maxChars W l)
      ∧ EnCurOk maxChars W (ws.foldl (en_step maxChars) (lines, cur)).2 := by
  intro ws
  induction ws with
  | nil =>
    intro lines cur _ hcur hlines
    exact ⟨hlines, hcur⟩
  | cons w rest ih =>
    intro lines cur hsub hcur hlines
    have hwW : w ∈ W := hsub w (by simp)
    have hsub' : ∀ x ∈ rest, x ∈ W := fun x hx => hsub x (by simp [hx])
    rw [List.foldl_cons]
    by_cases hcond : ((cur.length : Int) + 1 + (w.length : Int) > maxChars) ∧ cur ≠ []
    · have hstep : en_step maxChars (lines, cur) w = (lines ++ [cur], w) := by
        simp only [en_step]
        rw [if_pos hcond]
      rw [hstep]
      apply ih _ _ hsub' (Or.inr (Or.inr hwW))
      intro l hl
      rcases List.mem_append.mp hl with h | h
      · exact hlines l h
      · rw [List.mem_singleton.mp h]
        rcases hcur with h0 | h0 | h0
        · exact absurd h0 hcond.2
        · exact Or.inl ⟨hcond.2, h0⟩
        · exact Or.inr h0
    · have hstep : en_step maxChars (lines, cur) w
          = (lines, (if cur ≠ [] then cur ++ [' '] else cur) ++ w) := by
        simp only [en_step]
        rw [if_neg hcond]
      rw [hstep]
      apply ih _ _ hsub' _ hlines
      by_cases hnil : cur ≠ []
      · rw [if_pos hnil]
        right; left
        have hle : ¬ ((cur.length : Int) + 1 + (w.length : Int) > maxChars) :=
          fun hgt => hcond ⟨hgt, hnil⟩
      
        push_cast [List.length_append, List.length_singleton]
        push_cast at hle
        omega
      · rw [if_neg hnil]
        push_neg at hnil
        rw [hnil, List.nil_append]
        exact Or.inr (Or.inr hwW)

theorem width_of_le_max {fs pw m : Nat} (hfs : 0 < fs) {s : Str} (hs : s ≠ [])
    (hlen : (s.length : Int) ≤ Int.tdiv (2 * ((pw : Int) - 2 * (m : Int))) (fs : Int)) :
    est_width fs s ≤ usable_width pw m := by
  have hfsZ : (0 : Int) < (fs : Int) := by exact_mod_cast hfs
  have hlen1 : (1 : Int) ≤ (s.length : Int) := by
    have := List.length_pos.mpr hs
    exact_mod_cast this
  set a : Int := (pw : Int) - 2 * (m : Int) with ha
  have hmc1 : 1 ≤ Int.tdiv (2 * a) (fs : Int) := le_trans hlen1 hlen
  have h2a : 0 ≤ 2 * a := by
    by_contra hneg
    push_neg at hneg
    have hb : 0 ≤ -(2 * a) := by omega
    have hnn : 0 ≤ Int.tdiv (-(2 * a)) (fs : Int) := Int.tdiv_nonneg hb (le_of_lt hfsZ)
    rw [Int.neg_tdiv] at hnn
    omega
  have htd : Int.tdiv (2 * a) (fs : Int) = (2 * a) / (fs : Int) :=
    Int.tdiv_eq_ediv h2a (le_of_lt hfsZ)
  have hmul : (2 * a) / (fs : Int) * (fs : Int) ≤ 2 * a :=
    Int.ediv_mul_le _ (ne_of_gt hfsZ)
  have hZ : (fs : Int) * (s.length : Int) ≤ 2 * a := by
    calc (fs : Int) * (s.length : Int)
        ≤ (fs : Int) * Int.tdiv (2 * a) (fs : Int) :=
          mul_le_mul_of_nonneg_left hlen (le_of_lt hfsZ)
      _ = Int.tdiv (2 * a) (fs : Int) * (fs : Int) := mul_comm _ _
      _ = (2 * a) / (fs : Int) * (fs : Int) := by rw [htd]
      _ ≤ 2 * a := hmul
  rw [ha] at hZ
  unfold est_width usable_width
  have hQ : (fs : ℚ) * (s.length : ℚ) ≤ 2 * ((pw : ℚ) - 2 * (m : ℚ)) := by
    exact_mod_cast hZ
  linarith

/-- C5 amended: every line produced by split_paragraph_to_lines either has
    estimated width (0.5 * font_size per character) at most the usable width,
    or is (a suffix of) a single atomic token placed alone and allowed to
    overflow, or — a case the claim omits — is a line closed by the CJK
    punctuation-retention step: a line extended by exactly one punctuation
    character, whose trunk fits or is a token suffix, and which may exceed
    the usable width by that one character. -/
theorem C5_theorem :
    ∀ (cut : Str → List Str) (paragraph : Str) (fs pw m : Nat), 0 < fs →
      ∀ L, split_paragraph_to_lines cut paragraph fs pw m = some L →
        ∀ l ∈ L, LineOk fs pw m (tokens_of cut paragraph) l := by
  intro cut paragraph fs pw m hfs L hL l hl
  unfold split_paragraph_to_lines at hL
  by_cases hpara : paragraph = []
  · rw [if_pos hpara] at hL
    injection hL with hL
    subst hL
    simp at hl
  · rw [if_neg hpara, if_neg (by omega : ¬ fs = 0)] at hL
    dsimp only at hL
    set mc : Int := Int.tdiv (2 * ((pw : Int) - 2 * (m : Int))) (fs : Int) with hmc
    by_cases hcn : contains_chinese paragraph = true
    · rw [if_pos hcn] at hL
      injection hL with hL
      subst hL
      have htoks : tokens_of cut paragraph = cut paragraph := by simp [tokens_of, hcn]
      have hinv := cjk_fold_inv mc (cut paragraph) (cut paragraph) [] []
        (fun _ hw => hw) (Or.inl rfl) (by simp)
      have hconv : ∀ x, CjkLineOk mc (cut paragraph) x →
          LineOk fs pw m (tokens_of cut paragraph) x := by
        intro x hx
        rcases hx with ⟨s, hform, hspred⟩
        rcases hform with rfl | ⟨c, hc, rfl⟩
        · rcases hspred with ⟨hsnil, hslen⟩ | ⟨t, ht, hsuf⟩
          · exact Or.inl (width_of_le_max hfs hsnil (hmc ▸ hslen))
          · exact Or.inr (Or.inl ⟨t, htoks ▸ ht, hsuf⟩)
        · rcases hspred with ⟨hsnil, hslen⟩ | ⟨t, ht, hsuf⟩
          · exact Or.inr (Or.inr ⟨s, c, hc, rfl,
              Or.inl (width_of_le_max hfs hsnil (hmc ▸ hslen))⟩)
          · exact Or.inr (Or.inr ⟨s, c, hc, rfl, Or.inr ⟨t, htoks ▸ ht, hsuf⟩⟩)
      by_cases hc2 : ((cut paragraph).foldl (cjk_step mc) ([], [])).2 ≠ []
      · rw [if_pos hc2] at hl
        rcases List.mem_append.mp hl with h | h
        · exact hconv l (hinv.1 l h)
        · rw [List.mem_singleton.mp h]
          rcases hinv.2 with h0 | h0 | h0
          · exact absurd h0 hc2
          · exact hconv _ ⟨_, Or.inl rfl, Or.inl ⟨hc2, h0⟩⟩
          · exact hconv _ ⟨_, Or.inl rfl, Or.inr h0⟩
      · rw [if_neg hc2] at hl
        exact hconv l (hinv.1 l hl)
    · rw [if_neg hcn] at hL
      injection hL with hL
      subst hL
      have htoks : tokens_of cut paragraph = split_ws paragraph := by simp [tokens_of, hcn]
      have hinv := en_fold_inv mc (split_ws paragraph) (split_ws paragraph) [] []
        (fun _ hw => hw) (Or.inl rfl) (by simp)
      have hconv : ∀ x, EnLineOk mc (split_ws paragraph) x →
          LineOk fs pw m (tokens_of cut paragraph) x := by
        intro x hx
        rcases hx with ⟨hxnil, hxlen⟩ | hxW
        · exact Or.inl (width_of_le_max hfs hxnil (hmc ▸ hxlen))
        · exact Or.inr (Or.inl ⟨x, htoks ▸ hxW, List.suffix_refl x⟩)
      by_cases hc2 : ((split_ws paragraph).foldl (en_step mc) ([], [])).2 ≠ []
      · rw [if_pos hc2] at hl
        rcases List.mem_append.mp hl with h | h
        · exact hconv l (hinv.1 l h)
        · rw [List.mem_singleton.mp h]
          rcases hinv.2 with h0 | h0 | h0
          · exact absurd h0 hc2
          · exact hconv _ (Or.inl ⟨hc2, h0⟩)
          · exact hconv _ (Or.inr h0)
      · rw [if_neg hc2] at hl
        exact hconv l (hinv.1 l hl)

/-- C5 witness: on the concrete English paragraph ab the single produced
    line satisfies the width discipline. -/
theorem C5_witness :
    LineOk 16 800 30 (tokens_of cut_single ("ab".toList)) ("ab".toList) :=
  C5_theorem cut_single ("ab".toList) 16 800 30 (by decide) [("ab".toList)]
    (by decide) ("ab".toList) (by decide)

/-- C5 counterexample: on the CJK paragraph 你好。 (jieba tokens 你好 and 。)
    with usable width 16 at font size 16 (capacity 2 characters), the
    punctuation-retention step closes the line 你好。 of estimated width 24:
    wider than the usable width, yet not a single atomic token — the claimed
    single-token-only exception is violated. -/
theorem C5_counterexample :
    split_paragraph_to_lines cut_c5 ("你好。".toList) 16 76 30 = some [("你好。".toList)]
    ∧ ¬ est_width 16 ("你好。".toList) ≤ usable_width 76 30
    ∧ ("你好。".toList) ∉ cut_c5 ("你好。".toList) := by
  refine ⟨by decide, ?_, by decide⟩
  unfold est_width usable_width
  rw [show ("你好。".toList).length = 3 from by decide]
  norm_num

theorem hget_alloc {h : Heap} {img : Img} {r : Ref} (hr : r < h.length) :
    hget (alloc h img).1 r = hget h r := by
  simp only [alloc, hget, List.get?_eq_getElem?]
  exact List.getElem?_append_left hr

theorem hget_hset_ne {h : Heap} {r r' : Ref} {img : Img} (hne : r' ≠ r) :
    hget (hset h r img) r' = hget h r' := by
  simp only [hset, hget, List.get?_eq_getElem?]
  rw [List.getElem?_set_ne (fun he => hne he.symm)]

theorem heapExt_refl (h : Heap) : HeapExt h h :=
  ⟨le_refl _, fun _ _ => rfl⟩

theorem heapExt_trans {h1 h2 h3 : Heap} (a : HeapExt h1 h2) (b : HeapExt h2 h3) :
    HeapExt h1 h3 :=
  ⟨le_trans a.1 b.1, fun r hr => (b.2 r (lt_of_lt_of_le hr a.1)).trans (a.2 r hr)⟩

theorem heapExt_alloc {h h₂ : Heap} {img : Img} (he : HeapExt h h₂) :
    HeapExt h (alloc h₂ img).1 := by
  refine ⟨?_, ?_⟩
  · have := he.1
    simp only [alloc, List.length_append, List.length_singleton]
    omega
  · intro r hr
    rw [hget_alloc (lt_of_lt_of_le hr he.1)]
    exact he.2 r hr

theorem heapExt_hset {h h₂ : Heap} {r : Ref} {img : Img} (he : HeapExt h h₂)
    (hr : h.length ≤ r) : HeapExt h (hset h₂ r img) := by
  refine ⟨?_, ?_⟩
  · simp only [hset, List.length_set]
    exact he.1
  · intro r' hr'
    have hne : r' ≠ r := by omega
    rw [hget_hset_ne hne]
    exact he.2 r' hr'

theorem ink_spread_ext (pil : Pil) (intensity : ℚ) (h : Heap) (r : Ref) :
    HeapExt h (apply_ink_spread pil intensity h r).1 := by
  unfold apply_ink_spread
  split
  · exact heapExt_refl h
  · split
    · exact heapExt_refl h
    · split
      · exact heapExt_refl h
      · try dsimp only
        split
        · exact heapExt_alloc (heapExt_alloc (heapExt_refl h))
        · try dsimp only
          refine heapExt_hset (heapExt_hset (heapExt_alloc (heapExt_alloc (heapExt_hset
            (heapExt_alloc (heapExt_alloc (heapExt_alloc (heapExt_alloc (heapExt_refl h)))))
            ?_))) ?_) ?_
          · simp only [alloc, hset, List.length_append, List.length_singleton,
              List.length_set]
            omega
          · simp only [alloc, hset, List.length_append, List.length_singleton,
              List.length_set]
            omega
          · simp only [alloc, hset, List.length_append, List.length_singleton,
              List.length_set]
            omega

theorem noise_ext (pil : Pil) (intensity : ℚ) (g : RngState) (h : Heap) (r : Ref) :
    HeapExt h (apply_noise pil intensity g h r).1 := by
  unfold apply_noise
  split
  · exact heapExt_refl h
  · split
    · exact heapExt_refl h
    · split
      · exact heapExt_refl h
      · try dsimp only
        split
        · refine heapExt_hset (heapExt_alloc (heapExt_refl h)) ?_
          simp only [alloc]
          omega
        · refine heapExt_alloc (heapExt_hset (heapExt_alloc (heapExt_refl h)) ?_)
          simp only [alloc]
          omega

theorem blur_ext (pil : Pil) (intensity : ℚ) (h : Heap) (r : Ref) :
    HeapExt h (apply_blur pil intensity h r).1 := by
  unfold apply_blur
  split
  · exact heapExt_refl h
  · split
    · exact heapExt_refl h
    · split
      · exact heapExt_refl h
      · try dsimp only
        exact heapExt_alloc (heapExt_refl h)

theorem texture_ext (pil : Pil) (g : RngState) (h : Heap) (r : Ref) :
    HeapExt h (apply_paper_texture pil g h r).1 := by
  unfold apply_paper_texture
  split
  · exact heapExt_refl h
  · try dsimp only
    split
    · exact heapExt_hset (heapExt_alloc (heapExt_refl h)) (by simp only [alloc]; omega)
    · try dsimp only
      split
      · exact heapExt_alloc (heapExt_hset (heapExt_alloc (heapExt_refl h))
          (by simp only [alloc]; omega))
      · try dsimp only
        split
        · exact heapExt_alloc (heapExt_alloc (heapExt_hset
            (heapExt_alloc (heapExt_refl h)) (by simp only [alloc]; omega)))
        · try dsimp only
          split
          · exact heapExt_alloc (heapExt_alloc (heapExt_alloc (heapExt_hset
              (heapExt_alloc (heapExt_refl h)) (by simp only [alloc]; omega))))
          · try dsimp only
            exact heapExt_alloc (heapExt_alloc (heapExt_alloc (heapExt_alloc
              (heapExt_hset (heapExt_alloc (heapExt_refl h))
                (by simp only [alloc]; omega)))))

theorem brightness_ext (pil : Pil) (h : Heap) (r : Ref) :
    HeapExt h (adjust_brightness_contrast pil h r).1 := by
  unfold adjust_brightness_contrast
  split
  · exact heapExt_refl h
  · split
    · exact heapExt_refl h
    · try dsimp only
      split
      · exact heapExt_alloc (heapExt_refl h)
      · try dsimp only
        exact heapExt_alloc (heapExt_alloc (heapExt_refl h))

/-- C10: apply_effects never mutates the input canvas.  It copies the image
    into a fresh cell and every stage only allocates fresh cells or writes
    to cells it allocated itself, so for any raster primitives, generator
    state and effect style — whether the pipeline succeeds or fails — the
    input cell's pixel contents after the call are what they were before. -/
theorem C10_theorem :
    ∀ (pil : Pil) (g : RngState) (h : Heap) (r : Ref) (style : Str), r < h.length →
      hget (apply_effects pil g h r style).1 r = hget h r := by
  intro pil g h r style hr
  unfold apply_effects
  try dsimp only
  split
  · rfl
  · split
    · rfl
    · rename_i img heqimg
      try dsimp only
      split
      · rename_i inkI noiseI blurI _ _ _
        have e0 : HeapExt h (alloc h img).1 := heapExt_alloc (heapExt_refl h)
        split
        · rename_i h1 e heq1
          have e1 := ink_spread_ext pil inkI (alloc h img).1 (alloc h img).2
          rw [heq1] at e1
          exact (heapExt_trans e0 e1).2 r hr
        · rename_i h1 r1 heq1
          have e1 := ink_spread_ext pil inkI (alloc h img).1 (alloc h img).2
          rw [heq1] at e1
          have c1 : HeapExt h h1 := heapExt_trans e0 e1
          split
          · rename_i h2 g2 e heq2
            have e2 := noise_ext pil noiseI g h1 r1
            rw [heq2] at e2
            exact (heapExt_trans c1 e2).2 r hr
          · rename_i h2 g2 r2 heq2
            have e2 := noise_ext pil noiseI g h1 r1
            rw [heq2] at e2
            have c2 : HeapExt h h2 := heapExt_trans c1 e2
            split
            · rename_i h3 e heq3
              have e3 := blur_ext pil blurI h2 r2
              rw [heq3] at e3
              exact (heapExt_trans c2 e3).2 r hr
            · rename_i h3 r3 heq3
              have e3 := blur_ext pil blurI h2 r2
              rw [heq3] at e3
              have c3 : HeapExt h h3 := heapExt_trans c2 e3
              have e4 := texture_ext pil g2 h3 r3
              have c4 : HeapExt h (apply_paper_texture pil g2 h3 r3).1 :=
                heapExt_trans c3 e4
              split
              · rename_i h5 e heq5
                have e5 := brightness_ext pil (apply_paper_texture pil g2 h3 r3).1
                  (apply_paper_texture pil g2 h3 r3).2.2
                rw [heq5] at e5
                exact (heapExt_trans c4 e5).2 r hr
              · rename_i h5 r5 heq5
                have e5 := brightness_ext pil (apply_paper_texture pil g2 h3 r3).1
                  (apply_paper_texture pil g2 h3 r3).2.2
                rw [heq5] at e5
                exact (heapExt_trans c4 e5).2 r hr
      · rfl

/-- C10 witness: applying the enabled "limited" pipeline over a concrete
    raster library leaves the input cell of the one-image heap unchanged. -/
theorem C10_witness :
    hget (apply_effects pilOk g0 [whiteImg] 0 ("limited".toList)).1 0 = hget [whiteImg] 0 :=
  C10_theorem pilOk g0 [whiteImg] 0 ("limited".toList) (by decide)
